/-
Verification of fcd's x86_64 SystemV calling-convention recovery
(x86_64_systemv.cpp): a shallow embedding of the register/stack parameter
classification, the return-register candidate collection, the static
type-to-register classification, and the convention applicability test,
together with proofs of the specified properties.

External collaborators of the analyzed translation unit (TargetInfo,
MemorySSA, CallInformation, ipaFindUsedReturns, LLVM IR node classes) are
modelled explicitly; each such definition carries a doc comment saying so.
-/
import Mathlib

namespace X86SysV

/-- Architectural x86 registers relevant to the SystemV convention model:
the 64-bit integer registers used for parameters/returns plus the stack
pointer, and their 32-bit sub-registers. -/
inductive X86Reg where
  | rax | rcx | rdx | rsi | rdi | r8 | r9 | rsp
  | eax | ecx | edx | esi | edi | r8d | r9d | esp
deriving DecidableEq, Repr

/-- Modelled from the spec: the Target Register Model's
`largestOverlapping(RegisterRef)` — a 32-bit sub-register's largest
enclosing register is its 64-bit parent; a 64-bit register is its own
largest overlapping register (TargetInfo is not among the sources). -/
def largestOverlappingRegister : X86Reg → X86Reg
  | X86Reg.eax => X86Reg.rax
  | X86Reg.ecx => X86Reg.rcx
  | X86Reg.edx => X86Reg.rdx
  | X86Reg.esi => X86Reg.rsi
  | X86Reg.edi => X86Reg.rdi
  | X86Reg.r8d => X86Reg.r8
  | X86Reg.r9d => X86Reg.r9
  | X86Reg.esp => X86Reg.rsp
  | r => r

/-- Modelled from the spec: the Target Register Model's
`registerNamed(string)` lookup, on the names the convention tables use. -/
def registerNamed (s : String) : X86Reg :=
  if s = "rax" then X86Reg.rax
  else if s = "rcx" then X86Reg.rcx
  else if s = "rdx" then X86Reg.rdx
  else if s = "rsi" then X86Reg.rsi
  else if s = "rdi" then X86Reg.rdi
  else if s = "r8" then X86Reg.r8
  else if s = "r9" then X86Reg.r9
  else if s = "rsp" then X86Reg.rsp
  else X86Reg.rax

/-- Modelled from the spec: the Target Register Model's designated
stack-pointer register (`TargetInfo::getStackPointer`). -/
def getStackPointer : X86Reg := X86Reg.rsp

/-- Modelled from the spec: the Target Register Model's pointer width in
bits (`TargetInfo::getPointerSize`), 64 for x86_64. -/
def pointerSize : Nat := 64

/-- The `returnRegisters` table from the source: rax, rdx. -/
def returnRegisters : List String := ["rax", "rdx"]

/-- The `parameterRegisters` table from the source: rdi, rsi, rdx, rcx, r8, r9. -/
def parameterRegisters : List String := ["rdi", "rsi", "rdx", "rcx", "r8", "r9"]

/-- Modelled from the spec: `ValueInformation` (cc_common.h is not among
the sources) — where one parameter or return value lives: an integer
register, or a stack slot at a signed byte offset from the entry stack
pointer. -/
inductive ValueInformation where
  | intRegister (r : X86Reg)
  | stack (offset : Int)
deriving DecidableEq, Repr

/-- Modelled from the spec: `CallInformation` (cc_common.h is not among
the sources) — ordered sequences of parameter and return-value locations. -/
structure CallInformation where
  parameters : List ValueInformation
  returnValues : List ValueInformation
deriving DecidableEq, Repr

/-- The fragment of LLVM's type language the analysis inspects: void,
integer, pointer, plus representatives of every other kind (struct,
floating point, vector), which `addEntriesForType` must reject. -/
inductive LLVMType where
  | void
  | integer (bits : Nat)
  | pointer (pointee : LLVMType)
  | structType (name : String)
  | floatType
  | vectorType
deriving DecidableEq, Repr

/-- A use of a loaded stack-pointer value, as classified by the source's
pattern match `m_Add(m_Value(), m_ConstantInt(offset))`: either an add of
a constant (carrying the constant's `getLimitedValue`, a 64-bit unsigned
value) or any other use. -/
inductive LoadUse where
  | addConst (c : Nat)
  | other
deriving DecidableEq, Repr

/-- A user of a register-field address (GEP): a load (carrying the
MemorySSA oracle's verdict on whether its defining access is the
live-on-entry definition, and the uses of the loaded value), a store
through the address, or any other user. -/
inductive GepUser where
  | load (liveOnEntry : Bool) (valueUses : List LoadUse)
  | store
  | other
deriving DecidableEq, Repr

/-- A `GetElementPtrInst` on the register-file argument: the architectural
register field it addresses (none when unresolvable) and its users. -/
structure Gep where
  field : Option X86Reg
  users : List GepUser
deriving DecidableEq, Repr

/-- Modelled from the spec: `TargetInfo::registerInfo(GetElementPtrInst&)`
(pass_targetinfo is not among the sources) — resolves a register-file GEP
to a register, attributing the addressed field to its largest enclosing
register, or none when the GEP does not address a register field. -/
def registerInfo (g : Gep) : Option X86Reg :=
  g.field.map largestOverlappingRegister

/-- A user of the register-file argument itself: a GEP or anything else. -/
inductive RegFileUse where
  | gep (g : Gep)
  | other
deriving DecidableEq, Repr

/-- The part of a lifted `llvm::Function` that `analyzeFunction` inspects:
its argument types and the users of its first (register-file) argument. -/
structure Function where
  args : List LLVMType
  regUses : List RegFileUse
deriving DecidableEq, Repr

/-- The `geps` multimap built at the top of `analyzeFunction`: every GEP
user of the register-file argument for which `registerInfo` resolves,
keyed by the resolved register. -/
def geps (f : Function) : List (X86Reg × Gep) :=
  f.regUses.filterMap fun u =>
    match u with
    | RegFileUse.gep g => (registerInfo g).map fun r => (r, g)
    | RegFileUse.other => none

/-- The lookup `geps.equal_range(r)`: all GEPs keyed by register `r`. -/
def gepsFor (f : Function) (r : X86Reg) : List Gep :=
  (geps f).filterMap fun p => if p.1 = r then some p.2 else none

/-- Register-parameter pass, body of the loop over `parameterRegisters`:
for the named register, one `IntegerRegister` parameter entry per load
through one of its (largest-enclosing) GEPs whose defining memory access
is the live-on-entry definition. -/
def liveOnEntryLoadEntries (f : Function) (name : String) : List ValueInformation :=
  let regInfo := largestOverlappingRegister (registerNamed name)
  (gepsFor f regInfo).flatMap fun g =>
    g.users.filterMap fun u =>
      match u with
      | GepUser.load true _ => some (ValueInformation.intRegister regInfo)
      | _ => none

/-- All register-parameter entries, in the convention's fixed register
order (the loop over `parameterRegisters`). -/
def registerParams (f : Function) : List ValueInformation :=
  parameterRegisters.flatMap (liveOnEntryLoadEntries f)

/-- The source's cast of `ConstantInt::getLimitedValue()` (an unsigned
64-bit value) to its signed counterpart: two's-complement
reinterpretation of the low 64 bits. -/
def toInt64 (c : Nat) : Int :=
  if c % 2 ^ 64 < 2 ^ 63 then ((c % 2 ^ 64 : Nat) : Int)
  else ((c % 2 ^ 64 : Nat) : Int) - 2 ^ 64

/-- Stack-parameter pass, per stack-pointer GEP: for every load through
it and every use of the loaded value that is an add of a constant, a
`Stack` parameter entry at the signed constant offset when that offset is
strictly greater than 8. -/
def stackParamsOfGep (g : Gep) : List ValueInformation :=
  g.users.flatMap fun u =>
    match u with
    | GepUser.load _ valueUses =>
      valueUses.filterMap fun vu =>
        match vu with
        | LoadUse.addConst c =>
          if toInt64 c > 8 then some (ValueInformation.stack (toInt64 c)) else none
        | LoadUse.other => none
    | _ => []

/-- All stack-parameter entries, from the GEPs keyed by the stack
pointer. -/
def stackParams (f : Function) : List ValueInformation :=
  (gepsFor f getStackPointer).flatMap stackParamsOfGep

/-- Return-register candidate collection: for each name in
`returnRegisters` in order, one candidate entry per store user of one of
that register's GEPs. -/
def usedReturns (f : Function) : List X86Reg :=
  returnRegisters.flatMap fun name =>
    let regInfo := registerNamed name
    (gepsFor f regInfo).flatMap fun g =>
      g.users.filterMap fun u =>
        match u with
        | GepUser.store => some regInfo
        | _ => none

/-- Modelled from the spec: `ipaFindUsedReturns` (cc_common, not among
the sources) resolves candidate return registers through the
interprocedural return-usage query and keeps exactly the confirmed ones,
preserving the candidates' order. The query's verdict is the `confirmed`
oracle. -/
def ipaFindUsedReturns (confirmed : X86Reg → Bool) (candidates : List X86Reg) : List X86Reg :=
  candidates.filter confirmed

/-- Embedding of `CallingConvention_x86_64_systemv::analyzeFunction`. The two fatal
assertions on the function's shape (exactly one argument, of pointer type
whose pointee is the struct named "struct.x86_regs") are modelled as
`none`; under the precondition the result is `some` of the `callInfo`
with the recovered parameter and return-value entries appended. -/
def analyzeFunction (confirmed : X86Reg → Bool) (callInfo : CallInformation)
    (f : Function) : Option CallInformation :=
  match f.args with
  | [LLVMType.pointer (LLVMType.structType s)] =>
    if s = "struct.x86_regs" then
      some
        { parameters := callInfo.parameters ++ registerParams f ++ stackParams f
          returnValues := callInfo.returnValues ++
            (ipaFindUsedReturns confirmed (usedReturns f)).map ValueInformation.intRegister }
    else none
  | _ => none

/-- The `while (regIter != end && bitSize != 0)` loop of
`addEntriesForType`: append one `IntegerRegister` entry per consumed
register, stop when the bits run out or the cursor is exhausted; succeed
exactly when all bits were assigned. Returns (entries, remaining cursor,
success). -/
def intRegLoop (into : List ValueInformation) (regs : List String) (bits : Nat) :
    List ValueInformation × List String × Bool :=
  match regs, bits with
  | regs, 0 => (into, regs, true)
  | [], _ => (into, [], false)
  | r :: rest, bits =>
    intRegLoop (into ++ [ValueInformation.intRegister (registerNamed r)]) rest
      (bits - min bits 64)

/-- Embedding of `addEntriesForType`: pointers are reclassified as integers of pointer
width; integers consume registers through `intRegLoop`; every other type
succeeds exactly when it is void, consuming nothing. -/
def addEntriesForType (into : List ValueInformation) (regs : List String)
    (type : LLVMType) : List ValueInformation × List String × Bool :=
  let type' :=
    match type with
    | LLVMType.pointer _ => LLVMType.integer pointerSize
    | t => t
  match type' with
  | LLVMType.integer bits => intRegLoop into regs bits
  | t => (into, regs, decide (t = LLVMType.void))

/-- The parameter loop of `analyzeFunctionType`: walk the declared
parameter types against the shared register cursor, stopping with failure
at the first type `addEntriesForType` rejects (entries appended so far
remain in `fillOut`). -/
def analyzeTypeParamsLoop (fillOut : CallInformation) (cursor : List String) :
    List LLVMType → CallInformation × Bool
  | [] => (fillOut, true)
  | t :: ts =>
    let res := addEntriesForType fillOut.parameters cursor t
    let fillOut' := { fillOut with parameters := res.1 }
    if res.2.2 then analyzeTypeParamsLoop fillOut' res.2.1 ts else (fillOut', false)

/-- Embedding of `CallingConvention_x86_64_systemv::analyzeFunctionType`: classify the
return type against a fresh cursor over `returnRegisters`, then every
parameter type against one shared cursor over `parameterRegisters`;
the boolean result is false (`Unrepresentable`) when any classification
fails. -/
def analyzeFunctionType (fillOut : CallInformation) (returnType : LLVMType)
    (params : List LLVMType) : CallInformation × Bool :=
  let res := addEntriesForType fillOut.returnValues returnRegisters returnType
  let fillOut' := { fillOut with returnValues := res.1 }
  if res.2.2 then analyzeTypeParamsLoop fillOut' parameterRegisters params
  else (fillOut', false)

/-- C++ `std::string::substr(pos)`: the suffix from `pos` when
`pos <= size()`, and an `std::out_of_range` exception (modelled as
`none`) otherwise. Strings are modelled as lists of characters. -/
def cppSubstr (s : List Char) (pos : Nat) : Option (List Char) :=
  if pos ≤ s.length then some (s.drop pos) else none

/-- Embedding of `CallingConvention_x86_64_systemv::matches`:
`target.targetName().substr(3) == "x86" &&
executable.getExecutableType().substr(6) == "ELF 64"`, with C++
short-circuit evaluation; `none` models an escaping exception. (Named
`matchesConvention` because `matches` is reserved syntax in Lean.) -/
def matchesConvention (targetName exeType : List Char) : Option Bool :=
  match cppSubstr targetName 3 with
  | none => none
  | some t =>
    if t = "x86".toList then
      match cppSubstr exeType 6 with
      | none => none
      | some e => some (decide (e = "ELF 64".toList))
    else some false

/-- Whether a GEP user is a load whose defining memory access is the
live-on-entry definition. -/
def isEntryLoad : GepUser → Bool
  | GepUser.load true _ => true
  | _ => false

/-- Whether a GEP user is a store. -/
def isStore : GepUser → Bool
  | GepUser.store => true
  | _ => false

/-- Some read through register `r`'s grouped access paths sees the
function's entry memory state: a load user of a GEP keyed by `r` whose
defining memory access is the live-on-entry definition. -/
def hasEntryRead (f : Function) (r : X86Reg) : Bool :=
  (gepsFor f r).any fun g => g.users.any isEntryLoad

/-- The number of live-on-entry loads through register `r`'s grouped
access paths. -/
def entryReadCount (f : Function) (r : X86Reg) : Nat :=
  ((gepsFor f r).map fun g => g.users.countP isEntryLoad).sum

/-- The number of store users across register `r`'s grouped access
paths. -/
def storeCount (f : Function) (r : X86Reg) : Nat :=
  ((gepsFor f r).map fun g => g.users.countP isStore).sum

/-- Some load of the entry stack-pointer value is used in an add of a
constant whose signed 64-bit value is `off`. -/
def hasStackConstRead (f : Function) (off : Int) : Bool :=
  (gepsFor f getStackPointer).any fun g =>
    g.users.any fun u =>
      match u with
      | GepUser.load _ valueUses =>
        valueUses.any fun vu =>
          match vu with
          | LoadUse.addConst c => decide (toInt64 c = off)
          | LoadUse.other => false
      | _ => false

/-- Register `r` is written in the function body: some GEP keyed by `r`
has a store user. -/
def hasReturnStore (f : Function) (r : X86Reg) : Bool :=
  (gepsFor f r).any fun g => g.users.any isStore

/-- The bit width `addEntriesForType` assigns to a type, when the type is
integer-like: integers keep their width, pointers are reclassified to
pointer width, anything else (void included) is not integer-like. -/
def intLikeBits : LLVMType → Option Nat
  | LLVMType.integer bits => some bits
  | LLVMType.pointer _ => some pointerSize
  | _ => none

/-- Position of a parameter entry in the convention's fixed register
order; stack entries and foreign registers sort after all six parameter
registers. -/
def paramOrderIndex : ValueInformation → Nat
  | ValueInformation.intRegister X86Reg.rdi => 0
  | ValueInformation.intRegister X86Reg.rsi => 1
  | ValueInformation.intRegister X86Reg.rdx => 2
  | ValueInformation.intRegister X86Reg.rcx => 3
  | ValueInformation.intRegister X86Reg.r8 => 4
  | ValueInformation.intRegister X86Reg.r9 => 5
  | _ => 6

/-- Position of a register in the convention's fixed return-register
order rax, rdx; all other registers sort last. -/
def returnRegOrderIndex : X86Reg → Nat
  | X86Reg.rax => 0
  | X86Reg.rdx => 1
  | _ => 2

/-- The same fixed return order lifted to return-value entries. -/
def returnOrderIndex : ValueInformation → Nat
  | ValueInformation.intRegister r => returnRegOrderIndex r
  | _ => 3

/-- A `CallInformation` with empty sequences, the state in which the
orchestrator hands it to an analysis. -/
def emptyCallInfo : CallInformation := { parameters := [], returnValues := [] }

/-- The register-file argument list every well-shaped lifted function
has: a single pointer to the struct named "struct.x86_regs". -/
def x86RegsArgs : List LLVMType :=
  [LLVMType.pointer (LLVMType.structType "struct.x86_regs")]

/-- Example function: reads rdi and rdx (both seeing entry memory),
never touches rsi. -/
def exampleRdiRdx : Function :=
  { args := x86RegsArgs
    regUses :=
      [RegFileUse.gep { field := some X86Reg.rdx, users := [GepUser.load true []] },
       RegFileUse.gep { field := some X86Reg.rdi, users := [GepUser.load true []] }] }

/-- Example function: reads the 32-bit sub-register edi (seeing entry
memory) and also reads full rdi (seeing entry memory). -/
def exampleEdiRdi : Function :=
  { args := x86RegsArgs
    regUses :=
      [RegFileUse.gep { field := some X86Reg.edi, users := [GepUser.load true []] },
       RegFileUse.gep { field := some X86Reg.rdi, users := [GepUser.load true []] }] }

/-- Example function: writes rax and rdx (store users of their field
addresses). -/
def exampleRaxRdx : Function :=
  { args := x86RegsArgs
    regUses :=
      [RegFileUse.gep { field := some X86Reg.rdx, users := [GepUser.store] },
       RegFileUse.gep { field := some X86Reg.rax, users := [GepUser.store] }] }

/-- A `filterMap` whose function either yields the constant `c` (when a
predicate holds) or nothing is a `replicate` of `c` by the predicate's
count. -/
lemma filterMap_eq_replicate {α β : Type} (p : α → Bool) (c : β) (fn : α → Option β)
    (hfn : ∀ a, fn a = if p a then some c else none) (l : List α) :
    l.filterMap fn = List.replicate (l.countP p) c := by
  induction l with
  | nil => rfl
  | cons a l ih =>
    rw [List.filterMap_cons, List.countP_cons, hfn a]
    by_cases hp : p a = true
    · simp only [hp, if_true, ih, List.replicate_succ]
    · simp [hp, ih]

/-- Flattening per-GEP constant-entry filterMaps over a GEP list yields a
replicate by the summed per-GEP counts. -/
lemma flatMap_filterMap_replicate {β : Type} (p : GepUser → Bool) (c : β)
    (fn : GepUser → Option β) (hfn : ∀ u, fn u = if p u then some c else none)
    (l : List Gep) :
    (l.flatMap fun g => g.users.filterMap fn) =
      List.replicate ((l.map fun g => g.users.countP p).sum) c := by
  induction l with
  | nil => rfl
  | cons g gs ih =>
    rw [List.flatMap_cons, List.map_cons, List.sum_cons, List.replicate_add, ih,
      filterMap_eq_replicate p c fn hfn]

lemma entryLoadFn_eq (v : ValueInformation) (u : GepUser) :
    (match u with
      | GepUser.load true _ => some v
      | _ => none) = if isEntryLoad u then some v else none := by
  cases u with
  | load b vu => cases b <;> rfl
  | store => rfl
  | other => rfl

lemma storeFn_eq (r : X86Reg) (u : GepUser) :
    (match u with
      | GepUser.store => some r
      | _ => none) = if isStore u then some r else none := by
  cases u <;> rfl

/-- The register-parameter entries for one convention register name form
a replicate of that register's entry, one per live-on-entry load. -/
lemma liveOnEntryLoadEntries_eq (f : Function) (name : String) :
    liveOnEntryLoadEntries f name =
      List.replicate (entryReadCount f (largestOverlappingRegister (registerNamed name)))
        (ValueInformation.intRegister (largestOverlappingRegister (registerNamed name))) := by
  unfold liveOnEntryLoadEntries entryReadCount
  exact flatMap_filterMap_replicate isEntryLoad _ _ (entryLoadFn_eq _) _

/-- The return-register candidate list is the rax block followed by the
rdx block, one candidate per store. -/
lemma usedReturns_eq (f : Function) :
    usedReturns f =
      List.replicate (storeCount f (registerNamed "rax")) (registerNamed "rax") ++
        List.replicate (storeCount f (registerNamed "rdx")) (registerNamed "rdx") := by
  unfold usedReturns returnRegisters storeCount
  rw [List.flatMap_cons, List.flatMap_cons, List.flatMap_nil, List.append_nil]
  rw [flatMap_filterMap_replicate isStore _ _ (storeFn_eq _),
    flatMap_filterMap_replicate isStore _ _ (storeFn_eq _)]

lemma any_users_iff_sum_ne_zero (p : GepUser → Bool) (l : List Gep) :
    (l.any fun g => g.users.any p) = true ↔
      ((l.map fun g => g.users.countP p).sum ≠ 0) := by
  rw [List.any_eq_true]
  constructor
  · rintro ⟨g, hg, hany⟩ h0
    rw [List.sum_eq_zero_iff] at h0
    have hz := h0 (g.users.countP p) (List.mem_map_of_mem _ hg)
    rw [List.countP_eq_zero] at hz
    rw [List.any_eq_true] at hany
    obtain ⟨u, hu, hp⟩ := hany
    exact hz u hu hp
  · intro h0
    by_contra hno
    push_neg at hno
    apply h0
    rw [List.sum_eq_zero_iff]
    intro x hx
    rw [List.mem_map] at hx
    obtain ⟨g, hg, rfl⟩ := hx
    rw [List.countP_eq_zero]
    intro u hu hp
    exact hno g hg (List.any_eq_true.mpr ⟨u, hu, hp⟩)

lemma hasEntryRead_iff (f : Function) (r : X86Reg) :
    hasEntryRead f r = true ↔ entryReadCount f r ≠ 0 :=
  any_users_iff_sum_ne_zero isEntryLoad _

lemma hasReturnStore_iff (f : Function) (r : X86Reg) :
    hasReturnStore f r = true ↔ storeCount f r ≠ 0 :=
  any_users_iff_sum_ne_zero isStore _

/-- The register-parameter pass, rephrased as per-register replicates in
the convention's fixed order. -/
lemma registerParams_eq (f : Function) :
    registerParams f =
      parameterRegisters.flatMap fun name =>
        List.replicate (entryReadCount f (largestOverlappingRegister (registerNamed name)))
          (ValueInformation.intRegister (largestOverlappingRegister (registerNamed name))) := by
  unfold registerParams
  rw [funext (liveOnEntryLoadEntries_eq f)]

lemma mem_registerParams (f : Function) (v : ValueInformation) :
    v ∈ registerParams f ↔
      ∃ name ∈ parameterRegisters,
        v = ValueInformation.intRegister (largestOverlappingRegister (registerNamed name)) ∧
          entryReadCount f (largestOverlappingRegister (registerNamed name)) ≠ 0 := by
  rw [registerParams_eq, List.mem_flatMap]
  constructor
  · rintro ⟨name, hname, hv⟩
    rw [List.mem_replicate] at hv
    exact ⟨name, hname, hv.2, hv.1⟩
  · rintro ⟨name, hname, hv, hc⟩
    exact ⟨name, hname, List.mem_replicate.mpr ⟨hc, hv⟩⟩

/-- Membership in the stack-parameter entries: exactly the stack slots at
signed constant offsets strictly greater than 8 that some load of the
entry stack-pointer value is added to. -/
lemma mem_stackParams (f : Function) (v : ValueInformation) :
    v ∈ stackParams f ↔
      ∃ off : Int, v = ValueInformation.stack off ∧ 8 < off ∧
        hasStackConstRead f off = true := by
  constructor
  · intro hv
    unfold stackParams at hv
    rw [List.mem_flatMap] at hv
    obtain ⟨g, hg, hv⟩ := hv
    unfold stackParamsOfGep at hv
    rw [List.mem_flatMap] at hv
    obtain ⟨u, hu, hv⟩ := hv
    cases u with
    | load b vus =>
      replace hv : v ∈ vus.filterMap fun vu =>
          match vu with
          | LoadUse.addConst c =>
            if toInt64 c > 8 then some (ValueInformation.stack (toInt64 c)) else none
          | LoadUse.other => none := hv
      rw [List.mem_filterMap] at hv
      obtain ⟨vu, hvu, hsome⟩ := hv
      cases vu with
      | addConst c =>
        replace hsome :
            (if toInt64 c > 8 then some (ValueInformation.stack (toInt64 c)) else none) =
              some v := hsome
        by_cases hc : toInt64 c > 8
        · rw [if_pos hc] at hsome
          refine ⟨toInt64 c, (Option.some.inj hsome).symm, hc, ?_⟩
          unfold hasStackConstRead
          rw [List.any_eq_true]
          refine ⟨g, hg, ?_⟩
          rw [List.any_eq_true]
          refine ⟨GepUser.load b vus, hu, ?_⟩
          show (vus.any fun vu =>
            match vu with
            | LoadUse.addConst c2 => decide (toInt64 c2 = toInt64 c)
            | LoadUse.other => false) = true
          rw [List.any_eq_true]
          refine ⟨LoadUse.addConst c, hvu, ?_⟩
          show decide (toInt64 c = toInt64 c) = true
          exact decide_eq_true rfl
        · rw [if_neg hc] at hsome
          exact Option.noConfusion hsome
      | other =>
        replace hsome : (none : Option ValueInformation) = some v := hsome
        exact Option.noConfusion hsome
    | store =>
      replace hv : v ∈ ([] : List ValueInformation) := hv
      exact absurd hv (List.not_mem_nil v)
    | other =>
      replace hv : v ∈ ([] : List ValueInformation) := hv
      exact absurd hv (List.not_mem_nil v)
  · rintro ⟨off, hveq, hoff, hread⟩
    unfold hasStackConstRead at hread
    rw [List.any_eq_true] at hread
    obtain ⟨g, hg, hread⟩ := hread
    rw [List.any_eq_true] at hread
    obtain ⟨u, hu, hup⟩ := hread
    cases u with
    | load b vus =>
      replace hup : (vus.any fun vu =>
          match vu with
          | LoadUse.addConst c => decide (toInt64 c = off)
          | LoadUse.other => false) = true := hup
      rw [List.any_eq_true] at hup
      obtain ⟨vu, hvu, hp⟩ := hup
      cases vu with
      | addConst c =>
        replace hp : decide (toInt64 c = off) = true := hp
        have hceq : toInt64 c = off := of_decide_eq_true hp
        unfold stackParams
        rw [List.mem_flatMap]
        refine ⟨g, hg, ?_⟩
        unfold stackParamsOfGep
        rw [List.mem_flatMap]
        refine ⟨GepUser.load b vus, hu, ?_⟩
        show v ∈ vus.filterMap fun vu =>
          match vu with
          | LoadUse.addConst c =>
            if toInt64 c > 8 then some (ValueInformation.stack (toInt64 c)) else none
          | LoadUse.other => none
        rw [List.mem_filterMap]
        refine ⟨LoadUse.addConst c, hvu, ?_⟩
        show (if toInt64 c > 8 then some (ValueInformation.stack (toInt64 c)) else none) =
          some v
        rw [if_pos (by rw [hceq]; exact hoff), hveq, hceq]
      | other =>
        replace hp : false = true := hp
        exact Bool.noConfusion hp
    | store =>
      replace hup : false = true := hup
      exact Bool.noConfusion hup
    | other =>
      replace hup : false = true := hup
      exact Bool.noConfusion hup

/-- Splitting the result of a successful `analyzeFunction` run into the
three passes' contributions. -/
lemma analyzeFunction_eq_some {confirmed : X86Reg → Bool} {ci0 : CallInformation}
    {f : Function} {ci : CallInformation}
    (h : analyzeFunction confirmed ci0 f = some ci) :
    ci = { parameters := ci0.parameters ++ registerParams f ++ stackParams f
           returnValues := ci0.returnValues ++
             (ipaFindUsedReturns confirmed (usedReturns f)).map
               ValueInformation.intRegister } := by
  unfold analyzeFunction at h
  split at h
  · split at h
    · exact (Option.some.inj h).symm
    · exact absurd h (by simp)
  · exact absurd h (by simp)

/-- All Pairwise orderings by a numeric key: a flatMap of per-key blocks
over a key-sorted list is key-sorted. -/
lemma pairwise_flatMap_blocks {α β : Type} (key : β → Nat) (kOf : α → Nat)
    (g : α → List β) (l : List α)
    (hkey : ∀ a ∈ l, ∀ x ∈ g a, key x = kOf a)
    (hsort : l.Pairwise fun a b => kOf a ≤ kOf b) :
    (l.flatMap g).Pairwise fun x y => key x ≤ key y := by
  induction l with
  | nil => simp
  | cons a l ih =>
    rw [List.flatMap_cons, List.pairwise_append]
    rw [List.pairwise_cons] at hsort
    refine ⟨?_, ih (fun b hb => hkey b (List.mem_cons_of_mem a hb)) hsort.2, ?_⟩
    · apply List.pairwise_of_forall_mem_list
      intro x hx y hy
      rw [hkey a (List.mem_cons_self a l) x hx, hkey a (List.mem_cons_self a l) y hy]
    · intro x hx y hy
      rw [List.mem_flatMap] at hy
      obtain ⟨b, hb, hyb⟩ := hy
      rw [hkey a (List.mem_cons_self a l) x hx,
        hkey b (List.mem_cons_of_mem a hb) y hyb]
      exact hsort.1 b hb

lemma paramOrderIndex_le_six (v : ValueInformation) : paramOrderIndex v ≤ 6 := by
  cases v with
  | intRegister r => cases r <;> decide
  | stack off => exact Nat.le_refl 6

lemma registerParams_pairwise (f : Function) :
    (registerParams f).Pairwise fun x y => paramOrderIndex x ≤ paramOrderIndex y := by
  rw [registerParams_eq]
  apply pairwise_flatMap_blocks paramOrderIndex
    (fun name => paramOrderIndex
      (ValueInformation.intRegister (largestOverlappingRegister (registerNamed name))))
  · intro a _ x hx
    rw [List.eq_of_mem_replicate hx]
  · decide

lemma stackParams_index (f : Function) (v : ValueInformation) (hv : v ∈ stackParams f) :
    paramOrderIndex v = 6 := by
  obtain ⟨off, rfl, -, -⟩ := (mem_stackParams f v).mp hv
  rfl

/-- The full parameter list of a successful run follows the convention's
fixed register order (register entries in rdi, rsi, rdx, rcx, r8, r9
order, stack entries after them). -/
lemma params_pairwise (f : Function) :
    (registerParams f ++ stackParams f).Pairwise
      fun x y => paramOrderIndex x ≤ paramOrderIndex y := by
  rw [List.pairwise_append]
  refine ⟨registerParams_pairwise f, ?_, ?_⟩
  · apply List.pairwise_of_forall_mem_list
    intro x hx y hy
    rw [stackParams_index f x hx, stackParams_index f y hy]
  · intro x _ y hy
    rw [stackParams_index f y hy]
    exact paramOrderIndex_le_six x

/-- C1: `analyzeFunction` classifies a convention parameter register as a
parameter exactly when some read through that register's access paths
sees the function's entry memory state, and the recovered parameter list
follows the convention's fixed register order rdi, rsi, rdx, rcx, r8, r9
rather than read order. -/
theorem c1_param_classification (confirmed : X86Reg → Bool) (f : Function)
    (ci : CallInformation) (h : analyzeFunction confirmed emptyCallInfo f = some ci) :
    (∀ r : X86Reg,
      ValueInformation.intRegister r ∈ ci.parameters ↔
        (r ∈ parameterRegisters.map fun n => largestOverlappingRegister (registerNamed n)) ∧
          hasEntryRead f r = true) ∧
    ci.parameters.Pairwise fun x y => paramOrderIndex x ≤ paramOrderIndex y := by
  have hci := analyzeFunction_eq_some h
  subst hci
  constructor
  · intro r
    show ValueInformation.intRegister r ∈
        emptyCallInfo.parameters ++ registerParams f ++ stackParams f ↔ _
    rw [show emptyCallInfo.parameters = [] from rfl, List.nil_append, List.mem_append]
    constructor
    · intro hr
      cases hr with
      | inl hreg =>
        obtain ⟨name, hname, hveq, hcount⟩ := (mem_registerParams f _).mp hreg
        have hr2 : r = largestOverlappingRegister (registerNamed name) := by
          injection hveq
        refine ⟨List.mem_map.mpr ⟨name, hname, hr2.symm⟩, ?_⟩
        rw [hr2, hasEntryRead_iff]
        exact hcount
      | inr hst =>
        obtain ⟨off, heq, -, -⟩ := (mem_stackParams f _).mp hst
        exact absurd heq (by simp)
    · rintro ⟨hmem, hread⟩
      obtain ⟨name, hname, hr2⟩ := List.mem_map.mp hmem
      refine Or.inl ((mem_registerParams f _).mpr ⟨name, hname, by rw [hr2], ?_⟩)
      rw [hr2]
      exact (hasEntryRead_iff f r).mp hread
  · show (emptyCallInfo.parameters ++ registerParams f ++ stackParams f).Pairwise _
    rw [show emptyCallInfo.parameters = [] from rfl, List.nil_append]
    exact params_pairwise f

/-- Witness for C1 at a function reading rdx then rdi (in that use
order), never touching rsi: the recovered parameters are exactly
rdi, rdx, in the convention's fixed order. -/
theorem c1_param_classification_witness :
    (ValueInformation.intRegister X86Reg.rdi ∈
        ({ parameters := [ValueInformation.intRegister X86Reg.rdi,
                          ValueInformation.intRegister X86Reg.rdx],
           returnValues := [] } : CallInformation).parameters ↔
      (X86Reg.rdi ∈ parameterRegisters.map
          fun n => largestOverlappingRegister (registerNamed n)) ∧
        hasEntryRead exampleRdiRdx X86Reg.rdi = true) ∧
    (ValueInformation.intRegister X86Reg.rsi ∈
        ({ parameters := [ValueInformation.intRegister X86Reg.rdi,
                          ValueInformation.intRegister X86Reg.rdx],
           returnValues := [] } : CallInformation).parameters ↔
      (X86Reg.rsi ∈ parameterRegisters.map
          fun n => largestOverlappingRegister (registerNamed n)) ∧
        hasEntryRead exampleRdiRdx X86Reg.rsi = true) ∧
    ({ parameters := [ValueInformation.intRegister X86Reg.rdi,
                      ValueInformation.intRegister X86Reg.rdx],
       returnValues := [] } : CallInformation).parameters.Pairwise
      fun x y => paramOrderIndex x ≤ paramOrderIndex y :=
  ⟨(c1_param_classification (fun _ => false) exampleRdiRdx
      { parameters := [ValueInformation.intRegister X86Reg.rdi,
                       ValueInformation.intRegister X86Reg.rdx], returnValues := [] }
      (by decide)).1 X86Reg.rdi,
   (c1_param_classification (fun _ => false) exampleRdiRdx
      { parameters := [ValueInformation.intRegister X86Reg.rdi,
                       ValueInformation.intRegister X86Reg.rdx], returnValues := [] }
      (by decide)).1 X86Reg.rsi,
   (c1_param_classification (fun _ => false) exampleRdiRdx
      { parameters := [ValueInformation.intRegister X86Reg.rdi,
                       ValueInformation.intRegister X86Reg.rdx], returnValues := [] }
      (by decide)).2⟩

/-- C2 counterexample: a function reading the never-written sub-register
edi and also reading full rdi yields TWO rdi parameter entries, not a
single coalesced one — the accesses are attributed to rdi, but one entry
is appended per qualifying read, so duplicates are not removed. -/
theorem c2_counterexample :
    (analyzeFunction (fun _ => false) emptyCallInfo exampleEdiRdi).isSome = true ∧
    ((analyzeFunction (fun _ => false) emptyCallInfo exampleEdiRdi).getD
        emptyCallInfo).parameters =
      [ValueInformation.intRegister X86Reg.rdi, ValueInformation.intRegister X86Reg.rdi] ∧
    ((analyzeFunction (fun _ => false) emptyCallInfo exampleEdiRdi).getD
          emptyCallInfo).parameters.count (ValueInformation.intRegister X86Reg.rdi) ≠ 1 := by
  decide

/-- C2 (amended): register-field accesses are grouped by the largest
enclosing register, so a parameter entry only ever names one of the six
64-bit convention registers (sub-register reads are attributed to their
parent, and rdi appears iff some access path grouped under rdi has a
qualifying read); but the number of rdi entries equals the number of
qualifying reads, so coalescing of multiple reads into one entry does NOT
happen. -/
theorem c2_amended (confirmed : X86Reg → Bool) (f : Function) (ci : CallInformation)
    (h : analyzeFunction confirmed emptyCallInfo f = some ci) (r : X86Reg) :
    ci.parameters.count (ValueInformation.intRegister r) =
      if r ∈ parameterRegisters.map (fun n => largestOverlappingRegister (registerNamed n))
      then entryReadCount f r else 0 := by
  have hci := analyzeFunction_eq_some h
  subst hci
  show (emptyCallInfo.parameters ++ registerParams f ++ stackParams f).count
      (ValueInformation.intRegister r) = _
  rw [show emptyCallInfo.parameters = [] from rfl, List.nil_append, List.count_append]
  have hstack : (stackParams f).count (ValueInformation.intRegister r) = 0 := by
    rw [List.count_eq_zero]
    intro hmem
    obtain ⟨off, heq, -, -⟩ := (mem_stackParams f _).mp hmem
    exact absurd heq (by simp)
  rw [hstack, Nat.add_zero, registerParams_eq]
  simp only [parameterRegisters, List.flatMap_cons, List.flatMap_nil, List.append_nil,
    List.count_append, List.count_replicate]
  cases r <;>
    simp [registerNamed, largestOverlappingRegister, parameterRegisters]

/-- Witness for the amended C2 at the edi-and-rdi reader: the two reads
grouped under rdi give a count of two rdi entries. -/
theorem c2_amended_witness :
    ({ parameters := [ValueInformation.intRegister X86Reg.rdi,
                      ValueInformation.intRegister X86Reg.rdi],
       returnValues := [] } : CallInformation).parameters.count
        (ValueInformation.intRegister X86Reg.rdi) =
      if X86Reg.rdi ∈ parameterRegisters.map
          (fun n => largestOverlappingRegister (registerNamed n))
      then entryReadCount exampleEdiRdi X86Reg.rdi else 0 :=
  c2_amended (fun _ => false) exampleEdiRdi _ (by decide) X86Reg.rdi

/-- C4: the return-value candidates are exactly the convention return
registers (rax, rdx) with a store through their access paths; the emitted
return values are exactly the candidates confirmed by the interprocedural
query, in the convention's fixed rax-then-rdx order. -/
theorem c4_return_values (confirmed : X86Reg → Bool) (f : Function)
    (ci : CallInformation) (h : analyzeFunction confirmed emptyCallInfo f = some ci) :
    (∀ r : X86Reg, r ∈ usedReturns f ↔
        r ∈ returnRegisters.map registerNamed ∧ hasReturnStore f r = true) ∧
    (∀ r : X86Reg, ValueInformation.intRegister r ∈ ci.returnValues ↔
        (r ∈ returnRegisters.map registerNamed ∧ hasReturnStore f r = true ∧
          confirmed r = true)) ∧
    ci.returnValues.Pairwise fun x y => returnOrderIndex x ≤ returnOrderIndex y := by
  have hcand : ∀ r : X86Reg, r ∈ usedReturns f ↔
      r ∈ returnRegisters.map registerNamed ∧ hasReturnStore f r = true := by
    intro r
    rw [usedReturns_eq, List.mem_append, List.mem_replicate, List.mem_replicate]
    show _ ↔ r ∈ [registerNamed "rax", registerNamed "rdx"] ∧ _
    rw [List.mem_cons, List.mem_singleton]
    constructor
    · rintro (⟨hs, rfl⟩ | ⟨hs, rfl⟩)
      · exact ⟨Or.inl rfl, (hasReturnStore_iff f _).mpr hs⟩
      · exact ⟨Or.inr rfl, (hasReturnStore_iff f _).mpr hs⟩
    · rintro ⟨(rfl | rfl), hs⟩
      · exact Or.inl ⟨(hasReturnStore_iff f _).mp hs, rfl⟩
      · exact Or.inr ⟨(hasReturnStore_iff f _).mp hs, rfl⟩
  have hci := analyzeFunction_eq_some h
  subst hci
  refine ⟨hcand, ?_, ?_⟩
  · intro r
    show ValueInformation.intRegister r ∈ emptyCallInfo.returnValues ++
        (ipaFindUsedReturns confirmed (usedReturns f)).map ValueInformation.intRegister ↔ _
    rw [show emptyCallInfo.returnValues = [] from rfl, List.nil_append]
    constructor
    · intro hmem
      obtain ⟨r2, hr2, heq⟩ := List.mem_map.mp hmem
      have : r2 = r := by injection heq
      subst this
      unfold ipaFindUsedReturns at hr2
      rw [List.mem_filter] at hr2
      obtain ⟨hc1, hc2⟩ := (hcand r2).mp hr2.1
      exact ⟨hc1, hc2, hr2.2⟩
    · rintro ⟨hc1, hc2, hconf⟩
      refine List.mem_map.mpr ⟨r, ?_, rfl⟩
      unfold ipaFindUsedReturns
      rw [List.mem_filter]
      exact ⟨(hcand r).mpr ⟨hc1, hc2⟩, hconf⟩
  · show (emptyCallInfo.returnValues ++
        (ipaFindUsedReturns confirmed (usedReturns f)).map
          ValueInformation.intRegister).Pairwise _
    rw [show emptyCallInfo.returnValues = [] from rfl, List.nil_append]
    have hpw : (usedReturns f).Pairwise
        fun a b => returnRegOrderIndex a ≤ returnRegOrderIndex b := by
      rw [usedReturns_eq, List.pairwise_append]
      refine ⟨List.pairwise_replicate.mpr (Or.inr (Nat.le_refl _)),
        List.pairwise_replicate.mpr (Or.inr (Nat.le_refl _)), ?_⟩
      intro a ha b hb
      rw [List.eq_of_mem_replicate ha, List.eq_of_mem_replicate hb]
      decide
    have hfil : (ipaFindUsedReturns confirmed (usedReturns f)).Pairwise
        fun a b => returnRegOrderIndex a ≤ returnRegOrderIndex b :=
      hpw.sublist (List.filter_sublist _)
    exact List.pairwise_map.mpr hfil

/-- Witness for C4 at a function storing rdx then rax, with only rax
confirmed interprocedurally: the emitted return values are exactly
[rax]. -/
theorem c4_return_values_witness :
    (X86Reg.rdx ∈ usedReturns exampleRaxRdx ↔
      X86Reg.rdx ∈ returnRegisters.map registerNamed ∧
        hasReturnStore exampleRaxRdx X86Reg.rdx = true) ∧
    (ValueInformation.intRegister X86Reg.rdx ∈
        ({ parameters := [],
           returnValues := [ValueInformation.intRegister X86Reg.rax] } :
          CallInformation).returnValues ↔
      (X86Reg.rdx ∈ returnRegisters.map registerNamed ∧
        hasReturnStore exampleRaxRdx X86Reg.rdx = true ∧
          (X86Reg.rdx == X86Reg.rax) = true)) ∧
    ({ parameters := [],
       returnValues := [ValueInformation.intRegister X86Reg.rax] } :
      CallInformation).returnValues.Pairwise
      fun x y => returnOrderIndex x ≤ returnOrderIndex y :=
  ⟨(c4_return_values (fun r => r == X86Reg.rax) exampleRaxRdx
      { parameters := [],
        returnValues := [ValueInformation.intRegister X86Reg.rax] }
      (by decide)).1 X86Reg.rdx,
   (c4_return_values (fun r => r == X86Reg.rax) exampleRaxRdx
      { parameters := [],
        returnValues := [ValueInformation.intRegister X86Reg.rax] }
      (by decide)).2.1 X86Reg.rdx,
   (c4_return_values (fun r => r == X86Reg.rax) exampleRaxRdx
      { parameters := [],
        returnValues := [ValueInformation.intRegister X86Reg.rax] }
      (by decide)).2.2⟩

/-- Closed form of the register-consuming loop: it consumes
`ceil(bits / 64)` registers from the front of the cursor (as far as the
cursor allows), appends one integer-register entry per consumed register,
and succeeds exactly when the cursor was long enough. -/
lemma intRegLoop_eq (regs : List String) : ∀ (into : List ValueInformation) (bits : Nat),
    intRegLoop into regs bits =
      (into ++ (regs.take ((bits + 63) / 64)).map
          (fun n => ValueInformation.intRegister (registerNamed n)),
        regs.drop ((bits + 63) / 64),
        decide ((bits + 63) / 64 ≤ regs.length)) := by
  induction regs with
  | nil =>
    intro into bits
    cases bits with
    | zero =>
      show (into, ([] : List String), true) = _
      simp
    | succ b =>
      show (into, ([] : List String), false) = _
      have hd : decide ((b + 1 + 63) / 64 ≤ ([] : List String).length) = false := by
        rw [decide_eq_false_iff_not]
        simp only [List.length_nil]
        omega
      rw [hd]
      simp
  | cons r rest ih =>
    intro into bits
    cases bits with
    | zero =>
      show (into, r :: rest, true) = _
      simp
    | succ b =>
      show intRegLoop (into ++ [ValueInformation.intRegister (registerNamed r)]) rest
          ((b + 1) - min (b + 1) 64) = _
      rw [ih]
      have hd : ((b + 1) - min (b + 1) 64 + 63) / 64 = (b + 1 + 63) / 64 - 1 := by omega
      obtain ⟨d, hdd⟩ : ∃ d, (b + 1 + 63) / 64 = d + 1 :=
        ⟨(b + 1 + 63) / 64 - 1, by omega⟩
      rw [hd, hdd, Nat.add_sub_cancel, List.take_succ_cons, List.drop_succ_cons,
        List.map_cons]
      have h1 : into ++ [ValueInformation.intRegister (registerNamed r)] ++
          (rest.take d).map (fun n => ValueInformation.intRegister (registerNamed n)) =
          into ++ ValueInformation.intRegister (registerNamed r) ::
            (rest.take d).map (fun n => ValueInformation.intRegister (registerNamed n)) := by
        simp
      have h3 : decide (d ≤ rest.length) = decide (d + 1 ≤ (r :: rest).length) := by
        rw [decide_eq_decide, List.length_cons]
        omega
      rw [h1, h3]

lemma addEntriesForType_void (into : List ValueInformation) (regs : List String) :
    addEntriesForType into regs LLVMType.void = (into, regs, true) := rfl

lemma addEntriesForType_notIntLike {t : LLVMType} (hb : intLikeBits t = none)
    (hv : t ≠ LLVMType.void) (into : List ValueInformation) (regs : List String) :
    addEntriesForType into regs t = (into, regs, false) := by
  cases t with
  | integer bits => simp [intLikeBits] at hb
  | pointer p => simp [intLikeBits] at hb
  | void => exact absurd rfl hv
  | structType name => rfl
  | floatType => rfl
  | vectorType => rfl

/-- C6: an integer type of bit-width b that is classified successfully
consumes exactly ceil(b / 64) consecutive registers from the front of the
cursor, appending one register entry per consumed register. -/
theorem c6_integer_consumes_ceil (into : List ValueInformation) (regs : List String)
    (b : Nat) (h : (addEntriesForType into regs (LLVMType.integer b)).2.2 = true) :
    (addEntriesForType into regs (LLVMType.integer b)).1 =
      into ++ (regs.take ((b + 63) / 64)).map
        (fun n => ValueInformation.intRegister (registerNamed n)) ∧
    (addEntriesForType into regs (LLVMType.integer b)).2.1 =
      regs.drop ((b + 63) / 64) ∧
    ((regs.take ((b + 63) / 64)).map
        (fun n => ValueInformation.intRegister (registerNamed n))).length =
      (b + 63) / 64 := by
  have he : addEntriesForType into regs (LLVMType.integer b) = intRegLoop into regs b := rfl
  rw [he, intRegLoop_eq] at h
  have hle : (b + 63) / 64 ≤ regs.length := of_decide_eq_true h
  refine ⟨?_, ?_, ?_⟩
  · rw [he, intRegLoop_eq]
  · rw [he, intRegLoop_eq]
  · rw [List.length_map, List.length_take]
    omega

/-- Witness for C6: a 128-bit integer consumes rdi and rsi (two
consecutive registers), and a 65-bit integer also consumes two. -/
theorem c6_integer_consumes_ceil_witness :
    ((addEntriesForType [] parameterRegisters (LLVMType.integer 128)).1 =
        [] ++ (parameterRegisters.take ((128 + 63) / 64)).map
          (fun n => ValueInformation.intRegister (registerNamed n)) ∧
      (addEntriesForType [] parameterRegisters (LLVMType.integer 128)).2.1 =
        parameterRegisters.drop ((128 + 63) / 64) ∧
      ((parameterRegisters.take ((128 + 63) / 64)).map
          (fun n => ValueInformation.intRegister (registerNamed n))).length =
        (128 + 63) / 64) ∧
    ((addEntriesForType [] parameterRegisters (LLVMType.integer 65)).1 =
        [] ++ (parameterRegisters.take ((65 + 63) / 64)).map
          (fun n => ValueInformation.intRegister (registerNamed n)) ∧
      (addEntriesForType [] parameterRegisters (LLVMType.integer 65)).2.1 =
        parameterRegisters.drop ((65 + 63) / 64) ∧
      ((parameterRegisters.take ((65 + 63) / 64)).map
          (fun n => ValueInformation.intRegister (registerNamed n))).length =
        (65 + 63) / 64) :=
  ⟨c6_integer_consumes_ceil [] parameterRegisters 128 (by decide),
   c6_integer_consumes_ceil [] parameterRegisters 65 (by decide)⟩

lemma analyzeTypeParamsLoop_bad :
    ∀ (params : List LLVMType) (fillOut : CallInformation) (cursor : List String)
      (t : LLVMType), t ∈ params → intLikeBits t = none → t ≠ LLVMType.void →
      (analyzeTypeParamsLoop fillOut cursor params).2 = false := by
  intro params
  induction params with
  | nil =>
    intro _ _ t ht
    exact absurd ht (List.not_mem_nil t)
  | cons t2 ts ih =>
    intro fillOut cursor t ht hnone hnv
    simp only [analyzeTypeParamsLoop]
    by_cases hr : (addEntriesForType fillOut.parameters cursor t2).2.2 = true
    · rw [if_pos hr]
      rcases List.mem_cons.mp ht with rfl | hts
      · rw [addEntriesForType_notIntLike hnone hnv] at hr
        exact absurd hr (by simp)
      · exact ih _ _ t hts hnone hnv
    · rw [if_neg hr]

/-- C7: a return or parameter type that is neither integer, nor pointer
(reclassified as pointer-width integer), nor void makes
`analyzeFunctionType` return failure (`Unrepresentable`) for the whole
signature. -/
theorem c7_other_types_unrepresentable (fillOut : CallInformation) (retT : LLVMType)
    (params : List LLVMType) :
    (intLikeBits retT = none → retT ≠ LLVMType.void →
      (analyzeFunctionType fillOut retT params).2 = false) ∧
    (∀ t ∈ params, intLikeBits t = none → t ≠ LLVMType.void →
      (analyzeFunctionType fillOut retT params).2 = false) := by
  constructor
  · intro hnone hnv
    simp only [analyzeFunctionType]
    rw [addEntriesForType_notIntLike hnone hnv]
    rw [if_neg (by simp)]
  · intro t ht hnone hnv
    simp only [analyzeFunctionType]
    by_cases hr : (addEntriesForType fillOut.returnValues returnRegisters retT).2.2 = true
    · rw [if_pos hr]
      exact analyzeTypeParamsLoop_bad params _ _ t ht hnone hnv
    · rw [if_neg hr]

/-- Witness for C7: a floating-point return type and a vector parameter
type both yield failure. -/
theorem c7_other_types_unrepresentable_witness :
    (analyzeFunctionType emptyCallInfo LLVMType.floatType []).2 = false ∧
    (analyzeFunctionType emptyCallInfo LLVMType.void [LLVMType.vectorType]).2 = false :=
  ⟨(c7_other_types_unrepresentable emptyCallInfo LLVMType.floatType []).1 rfl (by decide),
   (c7_other_types_unrepresentable emptyCallInfo LLVMType.void [LLVMType.vectorType]).2
     LLVMType.vectorType (List.mem_singleton.mpr rfl) rfl (by decide)⟩

/-- C8: a declared signature with void return type and no parameters
succeeds with empty parameter and return sequences, and void consumes
zero registers from any cursor. -/
theorem c8_void_succeeds_empty :
    analyzeFunctionType emptyCallInfo LLVMType.void [] = (emptyCallInfo, true) ∧
    ∀ (into : List ValueInformation) (regs : List String),
      addEntriesForType into regs LLVMType.void = (into, regs, true) :=
  ⟨rfl, fun _ _ => rfl⟩

/-- C9: `analyzeFunction` produces a result exactly when the analyzed
function has exactly one argument whose type is a pointer to the struct
named "struct.x86_regs"; for any other shape the run aborts through the
fatal assertions (modelled as `none`), and under the precondition the
assertion branch is unreachable. -/
theorem c9_register_file_precondition (confirmed : X86Reg → Bool)
    (ci : CallInformation) (f : Function) :
    (analyzeFunction confirmed ci f).isSome = true ↔
      f.args = [LLVMType.pointer (LLVMType.structType "struct.x86_regs")] := by
  unfold analyzeFunction
  split
  next s heq =>
    by_cases hs : s = "struct.x86_regs"
    · rw [if_pos hs]
      simp [heq, hs]
    · rw [if_neg hs]
      simp [heq, hs]
  next hne =>
    simp only [Option.isSome_none, Bool.false_eq_true, false_iff]
    intro hargs
    exact hne "struct.x86_regs" hargs

/-- Closed form of `std::string::substr(pos)` on a string assembled from
a prefix of exactly `pos` characters and a suffix. -/
lemma cppSubstr_append_of_length (p s : List Char) (n : Nat) (hp : p.length = n) :
    cppSubstr (p ++ s) n = some s := by
  subst hp
  unfold cppSubstr
  rw [if_pos (by rw [List.length_append]; omega)]
  rw [List.drop_left]

/-- C10: `matches` answers true exactly when the target name's characters
from index 3 on equal "x86" and the executable type's characters from
index 6 on equal "ELF 64"; the first three (resp. six) characters are
ignored, so replacing those prefixes never changes the answer. -/
theorem c10_matches_ignores_prefixes :
    (∀ t e : List Char, matchesConvention t e = some true ↔
        (t.drop 3 = "x86".toList ∧ e.drop 6 = "ELF 64".toList)) ∧
    (∀ p q s e : List Char, p.length = 3 → q.length = 3 →
        matchesConvention (p ++ s) e = matchesConvention (q ++ s) e) ∧
    (∀ t p q s : List Char, p.length = 6 → q.length = 6 →
        matchesConvention t (p ++ s) = matchesConvention t (q ++ s)) := by
  refine ⟨?_, ?_, ?_⟩
  · intro t e
    unfold matchesConvention cppSubstr
    by_cases h3 : 3 ≤ t.length
    · rw [if_pos h3]
      show (if t.drop 3 = "x86".toList then
          match (if 6 ≤ e.length then some (e.drop 6) else none) with
          | none => none
          | some e2 => some (decide (e2 = "ELF 64".toList))
        else some false) = some true ↔ _
      by_cases h4 : t.drop 3 = "x86".toList
      · rw [if_pos h4]
        by_cases h6 : 6 ≤ e.length
        · rw [if_pos h6]
          show some (decide (e.drop 6 = "ELF 64".toList)) = some true ↔ _
          simp [h4]
        · rw [if_neg h6]
          have he : e.drop 6 = [] := List.drop_eq_nil_of_le (by omega)
          simp [h4, he]
      · rw [if_neg h4]
        simp only [Option.some.injEq, Bool.false_eq_true, false_iff, not_and]
        intro hh
        exact absurd hh h4
    · rw [if_neg h3]
      have ht : t.drop 3 = [] := List.drop_eq_nil_of_le (by omega)
      simp [ht]
  · intro p q s e hp hq
    unfold matchesConvention
    rw [cppSubstr_append_of_length p s 3 hp, cppSubstr_append_of_length q s 3 hq]
  · intro t p q s hp hq
    unfold matchesConvention
    cases cppSubstr t 3 with
    | none => rfl
    | some tl =>
      show (if tl = "x86".toList then
          match cppSubstr (p ++ s) 6 with
          | none => none
          | some e2 => some (decide (e2 = "ELF 64".toList))
        else some false) = (if tl = "x86".toList then
          match cppSubstr (q ++ s) 6 with
          | none => none
          | some e2 => some (decide (e2 = "ELF 64".toList))
        else some false)
      rw [cppSubstr_append_of_length p s 6 hp, cppSubstr_append_of_length q s 6 hq]

/-- Witness for C10: with length-3 and length-6 prefixes replaced the
answer is unchanged, and a pair with the right suffixes matches. -/
theorem c10_matches_ignores_prefixes_witness :
    matchesConvention ("abc".toList ++ "x86".toList) "prefixELF 64".toList =
      matchesConvention ("xyz".toList ++ "x86".toList) "prefixELF 64".toList ∧
    matchesConvention "abcx86".toList ("prefix".toList ++ "ELF 64".toList) =
      matchesConvention "abcx86".toList ("123456".toList ++ "ELF 64".toList) ∧
    matchesConvention "abcx86".toList "prefixELF 64".toList = some true :=
  ⟨c10_matches_ignores_prefixes.2.1 _ _ _ _ (by decide) (by decide),
   c10_matches_ignores_prefixes.2.2 _ _ _ _ (by decide) (by decide),
   (c10_matches_ignores_prefixes.1 _ _).mpr (by decide)⟩

end X86SysV
